import Mathlib

/-!
Verification of the War card-game simulator (`main.go`) against its
natural-language specification.

The Go program is embedded shallowly.  Randomness is modelled by a
*shuffle oracle* `sh : Nat → List Card → List Card`: the `n`-th call of
`shuffleDeck` in program order replaces a pile `l` by `sh n l`.  A real
run of the program always uses a length-preserving oracle (Go's
`rand.Shuffle` permutes in place), which is captured by the hypothesis
`LengthPreserving sh` where needed.  The index of the next unused oracle
entry (`k` below) is threaded through every function exactly where the
Go code calls `shuffleDeck`.

The general recursion of `handleWar`/`handleDeepWar` and the main trick
loop is embedded with an explicit fuel argument; fuel exhaustion yields
`none`.  `playGame` supplies `totalCards pA + totalCards pB + 1` fuel to
each war (proved sufficient below) and `100001` fuel to the trick loop
(one more than the program's hard `maxTricks = 100000` ceiling).
-/

namespace Wargames

/-- Go `Card`: a struct with a single `Rank int` field.  The zero value
`Card{}` (rank 0) is the program's "no card" sentinel. -/
structure Card where
  rank : Int
deriving DecidableEq, Repr, Inhabited

/-- Go `Player`: a draw pile and a winnings pile, front of the list =
front of the Go slice. -/
structure Player where
  drawPile : List Card
  winningsPile : List Card
deriving DecidableEq, Repr, Inhabited

/-- Total number of cards a player holds, `len(DrawPile)+len(WinningsPile)`. -/
def totalCards (p : Player) : Nat :=
  p.drawPile.length + p.winningsPile.length

/-- Go `GameStats`.  All Go `int` fields are embedded as `Int`;
`GameDuration` is kept in milliseconds. -/
structure GameStats where
  gameNumber : Int := 0
  tricks : Int := 0
  wars : Int := 0
  deepWars : Int := 0
  totalWarDepth : Int := 0
  shufflesA : Int := 0
  shufflesB : Int := 0
  gameDuration : Int := 0
  finished : Bool := false
  playerATricks : Int := 0
  playerBTricks : Int := 0
  winner : Int := 0
deriving DecidableEq, Repr, Inhabited

/-- Go `WarResult`. -/
structure WarResult where
  winner : Int := 0
  playerATricks : Int := 0
  playerBTricks : Int := 0
deriving DecidableEq, Repr, Inhabited

/-- A shuffle oracle: call number `n` of `shuffleDeck` turns the pile `l`
into `sh n l`. -/
def ShuffleOracle : Type := Nat → List Card → List Card

/-- The oracle only ever rearranges piles in place, as Go's
`rand.Shuffle` does: every call preserves the pile's length. -/
def LengthPreserving (sh : ShuffleOracle) : Prop :=
  ∀ n l, (sh n l).length = l.length

/-- The identity oracle (a legal shuffle: it preserves every pile). -/
def idShuffle : ShuffleOracle := fun _ l => l

/-- A concrete rearrangement of the 52-card deck (proved below to be a
permutation of `createDeck false`): player A receives
`2 3 3 3 3 2 2 5 5 5 5 6 6 6 6 7 7 7 7 8 8 8 8 9 9 9` and player B
`2 4 4 4 4 9 10 10 10 10 11 11 11 11 12 12 12 12 13 13 13 13 14 14 14 14`,
so trick 1 is a war (2 vs 2) whose comparison cards are 3 vs 4. -/
def warDeck : List Card :=
  ([2, 3, 3, 3, 3, 2, 2, 5, 5, 5, 5, 6, 6, 6, 6, 7, 7, 7, 7, 8, 8, 8, 8, 9, 9, 9]
    ++ [2, 4, 4, 4, 4, 9, 10, 10, 10, 10, 11, 11, 11, 11, 12, 12, 12, 12,
        13, 13, 13, 13, 14, 14, 14, 14]).map fun r => ⟨(r : Int)⟩

/-- An oracle whose first call (the initial deck shuffle) produces
`warDeck` and whose later calls leave piles unchanged. -/
def warShuffle : ShuffleOracle := fun n l => if n = 0 then warDeck else l

/-- Go `createDeck`: for each rank 2..14 four cards of that rank in
ascending order, plus two rank-15 jokers when requested. -/
def createDeck (includeJokers : Bool) : List Card :=
  ((List.range' 2 13).map fun r => List.replicate 4 ({ rank := (r : Int) } : Card)).flatten
    ++ (if includeJokers then [⟨15⟩, ⟨15⟩] else [])

/-- Go `drawCard`.  Returns `(card, shuffled, player, k)` where
`shuffled` is the Go `int` reshuffle signal and `k` the next oracle
index.  NOTE: this is a faithful translation of the source, including
its slip: in the reshuffle branch the Go code returns
`player.DrawPile[0]` but never advances the slice, so the returned card
is *not* removed from the draw pile. -/
def drawCard (sh : ShuffleOracle) (p : Player) (k : Nat) :
    Card × Int × Player × Nat :=
  if p.drawPile.isEmpty then
    if p.winningsPile.isEmpty then
      (⟨0⟩, 0, p, k)
    else
      let newDraw := sh k p.winningsPile
      (newDraw.headD ⟨0⟩, 1, ⟨newDraw, []⟩, k + 1)
  else
    (p.drawPile.headD ⟨0⟩, 0, ⟨p.drawPile.tail, p.winningsPile⟩, k)

/-- One iteration `i` of the `for i := 0; i < 4; i++` loop of Go
`drawWarCards`, with `n` iterations remaining.  State is
`(cards, player, shuffles, totalTime, k)`. -/
def drawWarCardsAux (sh : ShuffleOracle) (handTime shuffleTime : Int) :
    Nat → List Card → Player → Int → Int → Nat →
    List Card × Player × Int × Int × Nat
  | 0, cards, p, shuffles, totalTime, k => (cards, p, shuffles, totalTime, k)
  | n + 1, cards, p, shuffles, totalTime, k =>
    match drawCard sh p k with
    | (card, shuffled, p2, k2) =>
      let shuffles2 := if shuffled > 0 then shuffles + 1 else shuffles
      let totalTime2 :=
        (if shuffled > 0 then totalTime + shuffleTime else totalTime) + handTime
      if card = (⟨0⟩ : Card) then
        (cards, p2, shuffles2, totalTime2, k2)
      else
        drawWarCardsAux sh handTime shuffleTime n
          (cards ++ [card]) p2 shuffles2 totalTime2 k2

/-- Go `drawWarCards`: draw up to four cards, charging `handTime` per
iteration and `shuffleTime` per reshuffle, stopping at the `Card{}`
sentinel. -/
def drawWarCards (sh : ShuffleOracle) (handTime shuffleTime : Int)
    (p : Player) (shuffles totalTime : Int) (k : Nat) :
    List Card × Player × Int × Int × Nat :=
  drawWarCardsAux sh handTime shuffleTime 4 [] p shuffles totalTime k

/-- Go `timeoutResult`: award the war to the strictly larger holding;
the `else` branch sends ties to player B. -/
def timeoutResult (pA pB : Player) : WarResult :=
  if totalCards pA > totalCards pB then
    { winner := 1, playerATricks := 1 }
  else
    { winner := 2, playerBTricks := 1 }

/-- Go `determineWarWinner`: a player who obtained no war cards loses. -/
def determineWarWinner (cardsA cardsB : List Card) : WarResult :=
  if cardsA.length = 0 then
    { winner := 2, playerBTricks := 1 }
  else
    { winner := 1, playerATricks := 1 }

/-- Result type of `handleWar`: the `WarResult` plus the final players,
stats, elapsed time and oracle index. -/
abbrev WarOut : Type := WarResult × Player × Player × GameStats × Int × Nat

/-- The body of Go `handleDeepWar`, with the recursive call back into
`handleWar` abstracted as the continuation `next`: bump the deep-war
counter, guard against an exhausted player, then recurse one depth
deeper. -/
def handleDeepWarWith
    (next : Player → Player → List Card → GameStats → Int → Nat → Int → Option WarOut)
    (pA pB : Player) (warPile : List Card) (stats : GameStats)
    (totalTime : Int) (k : Nat) (depth : Int) : Option WarOut :=
  let stats1 := { stats with deepWars := stats.deepWars + 1 }
  if totalCards pA = 0 then
    some ({ winner := 2, playerBTricks := 1 }, pA, pB, stats1, totalTime, k)
  else if totalCards pB = 0 then
    some ({ winner := 1, playerATricks := 1 }, pA, pB, stats1, totalTime, k)
  else
    next pA pB warPile stats1 totalTime k (depth + 1)

/-- The body of Go `handleWar`, with the recursive call (which in the
source goes through `handleDeepWar`) abstracted as the continuation
`next`.  Arguments: `pA pB warPile stats totalTime k depth`.  The
accumulated `warPile` is threaded exactly as in the source; note that
the Go caller passes its slice by value, so this accumulation is
invisible to `playGame` (see `playGameLoop`). -/
def handleWarStep (sh : ShuffleOracle) (handTime shuffleTime maxGameTime : Int)
    (next : Player → Player → List Card → GameStats → Int → Nat → Int → Option WarOut)
    (pA pB : Player) (warPile : List Card) (stats : GameStats)
    (totalTime : Int) (k : Nat) (depth : Int) : Option WarOut :=
  let stats1 := { stats with wars := stats.wars + 1,
                             totalWarDepth := stats.totalWarDepth + depth }
  let totalTime1 := totalTime + handTime
  if totalTime1 ≥ maxGameTime then
    some (timeoutResult pA pB, pA, pB, stats1, totalTime1, k)
  else
    match drawWarCards sh handTime shuffleTime pA stats1.shufflesA totalTime1 k with
    | (cardsA, pA2, sA2, totalTime2, k2) =>
      let stats2 := { stats1 with shufflesA := sA2 }
      match drawWarCards sh handTime shuffleTime pB stats2.shufflesB totalTime2 k2 with
      | (cardsB, pB2, sB2, totalTime3, k3) =>
        let stats3 := { stats2 with shufflesB := sB2 }
        if cardsA.length = 0 ∨ cardsB.length = 0 then
          some (determineWarWinner cardsA cardsB, pA2, pB2, stats3, totalTime3, k3)
        else
          let cardA := cardsA.getLastD ⟨0⟩
          let cardB := cardsB.getLastD ⟨0⟩
          let warPile2 := warPile ++ cardsA.dropLast ++ cardsB.dropLast ++ [cardA, cardB]
          if cardA.rank = cardB.rank then
            handleDeepWarWith next pA2 pB2 warPile2 stats3 totalTime3 k3 depth
          else if cardA.rank > cardB.rank then
            some ({ winner := 1, playerATricks := 1 }, pA2, pB2, stats3, totalTime3, k3)
          else
            some ({ winner := 2, playerBTricks := 1 }, pA2, pB2, stats3, totalTime3, k3)

/-- Go `handleWar`, with explicit fuel.  The recursion is realised by a
hand-rolled `Nat.rec` so that the kernel can evaluate concrete games
lazily (the standard structural-recursion compilation builds an eager
course-of-values tower that makes kernel evaluation infeasible);
`handleWar_succ` below recovers the usual unfolding equation by `rfl`. -/
def handleWar (sh : ShuffleOracle) (handTime shuffleTime maxGameTime : Int)
    (fuel : Nat) :
    Player → Player → List Card → GameStats → Int → Nat → Int → Option WarOut :=
  Nat.rec
    (motive := fun _ =>
      Player → Player → List Card → GameStats → Int → Nat → Int → Option WarOut)
    (fun _ _ _ _ _ _ _ => none)
    (fun _ ih => handleWarStep sh handTime shuffleTime maxGameTime ih)
    fuel

/-- Go `handleDeepWar`: its Go recursion back into `handleWar` keeps the
same (implicit) fuel. -/
def handleDeepWar (sh : ShuffleOracle) (handTime shuffleTime maxGameTime : Int)
    (fuel : Nat) :
    Player → Player → List Card → GameStats → Int → Nat → Int → Option WarOut :=
  handleDeepWarWith (handleWar sh handTime shuffleTime maxGameTime fuel)

/-- Unfolding equation of `handleWar` at zero fuel. -/
theorem handleWar_zero (sh : ShuffleOracle) (handTime shuffleTime maxGameTime : Int) :
    handleWar sh handTime shuffleTime maxGameTime 0 = fun _ _ _ _ _ _ _ => none :=
  rfl

/-- Unfolding equation of `handleWar` at positive fuel: one war level,
whose nested-war continuation is `handleDeepWar` at the remaining fuel. -/
theorem handleWar_succ (sh : ShuffleOracle) (handTime shuffleTime maxGameTime : Int)
    (fuel : Nat) :
    handleWar sh handTime shuffleTime maxGameTime (fuel + 1) =
      handleWarStep sh handTime shuffleTime maxGameTime
        (handleWar sh handTime shuffleTime maxGameTime fuel) :=
  rfl

/-- The tie branch of a positive-fuel `handleWar` invokes exactly
`handleDeepWar` at the remaining fuel, as in the source. -/
theorem handleDeepWarWith_eq (sh : ShuffleOracle) (handTime shuffleTime maxGameTime : Int)
    (fuel : Nat) :
    handleDeepWarWith (handleWar sh handTime shuffleTime maxGameTime fuel) =
      handleDeepWar sh handTime shuffleTime maxGameTime fuel :=
  rfl

/-- State at a trick boundary of the Go `for` loop of `playGame`:
the two players, the statistics record, the elapsed time and the next
oracle index. -/
abbrev LoopState : Type := Player × Player × GameStats × Int × Nat

/-- The loop condition of Go `playGame`'s `for` loop. -/
def loopCond (maxGameTime : Int) (pA pB : Player) (stats : GameStats)
    (totalTime : Int) : Prop :=
  totalCards pA > 0 ∧ totalCards pB > 0 ∧
    stats.tricks < 100000 ∧ totalTime < maxGameTime

instance (maxGameTime : Int) (pA pB : Player) (stats : GameStats) (totalTime : Int) :
    Decidable (loopCond maxGameTime pA pB stats totalTime) := by
  unfold loopCond; infer_instance

/-- One iteration of the trick loop, with the next loop round abstracted
as the continuation `next`.  In the war branch the Go caller appends its
*own* two-card `warPile` slice to the winner's winnings: the appends
performed inside `handleWar` reallocate the callee's slice and are
invisible here, which this translation reproduces. -/
def playGameStep (sh : ShuffleOracle) (handTime shuffleTime maxGameTime : Int)
    (next : Player → Player → GameStats → Int → Nat → Option LoopState)
    (pA pB : Player) (stats : GameStats) (totalTime : Int) (k : Nat) :
    Option LoopState :=
  let stats1 := { stats with tricks := stats.tricks + 1 }
  let totalTime1 := totalTime + handTime
  match drawCard sh pA k with
  | (cardA, shuffledA, pA1, k1) =>
    match drawCard sh pB k1 with
    | (cardB, shuffledB, pB1, k2) =>
      let stats2 := { stats1 with
        shufflesA := stats1.shufflesA + shuffledA,
        shufflesB := stats1.shufflesB + shuffledB }
      let totalTime2 := totalTime1 + (shuffledA + shuffledB) * shuffleTime
      if cardA.rank = cardB.rank then
        let warPile := [cardA, cardB]
        match handleWar sh handTime shuffleTime maxGameTime
            (totalCards pA1 + totalCards pB1 + 1)
            pA1 pB1 warPile stats2 totalTime2 k2 1 with
        | none => none
        | some (result, pA2, pB2, stats3, totalTime3, k3) =>
          let stats4 := { stats3 with
            playerATricks := stats3.playerATricks + result.playerATricks,
            playerBTricks := stats3.playerBTricks + result.playerBTricks }
          let pA3 := if result.winner = 1 then
              { pA2 with winningsPile := pA2.winningsPile ++ warPile } else pA2
          let pB3 := if result.winner = 2 then
              { pB2 with winningsPile := pB2.winningsPile ++ warPile } else pB2
          next pA3 pB3 stats4 totalTime3 k3
      else if cardA.rank > cardB.rank then
        next { pA1 with winningsPile := pA1.winningsPile ++ [cardA, cardB] } pB1
          { stats2 with playerATricks := stats2.playerATricks + 1 } totalTime2 k2
      else
        next pA1 { pB1 with winningsPile := pB1.winningsPile ++ [cardA, cardB] }
          { stats2 with playerBTricks := stats2.playerBTricks + 1 } totalTime2 k2

/-- The Go `for` loop of `playGame`, with fuel.  Each round first checks
the source's loop condition; with fuel left it runs one `playGameStep`
and loops, and with none left it returns `none` (unreachable from
`playGameRun`, which supplies one more fuel than the `maxTricks`
ceiling; see `playGameLoop_isSome`).  Hand-rolled `Nat.rec`, for the
same kernel-evaluation reason as `handleWar`. -/
def playGameLoop (sh : ShuffleOracle) (handTime shuffleTime maxGameTime : Int)
    (fuel : Nat) :
    Player → Player → GameStats → Int → Nat → Option LoopState :=
  Nat.rec
    (motive := fun _ => Player → Player → GameStats → Int → Nat → Option LoopState)
    (fun pA pB stats totalTime k =>
      if loopCond maxGameTime pA pB stats totalTime then none
      else some (pA, pB, stats, totalTime, k))
    (fun _ ih pA pB stats totalTime k =>
      if loopCond maxGameTime pA pB stats totalTime then
        playGameStep sh handTime shuffleTime maxGameTime ih pA pB stats totalTime k
      else some (pA, pB, stats, totalTime, k))
    fuel

/-- Unfolding equation of `playGameLoop` at zero fuel. -/
theorem playGameLoop_zero (sh : ShuffleOracle) (handTime shuffleTime maxGameTime : Int)
    (pA pB : Player) (stats : GameStats) (totalTime : Int) (k : Nat) :
    playGameLoop sh handTime shuffleTime maxGameTime 0 pA pB stats totalTime k =
      if loopCond maxGameTime pA pB stats totalTime then none
      else some (pA, pB, stats, totalTime, k) :=
  rfl

/-- Unfolding equation of `playGameLoop` at positive fuel. -/
theorem playGameLoop_succ (sh : ShuffleOracle) (handTime shuffleTime maxGameTime : Int)
    (fuel : Nat) (pA pB : Player) (stats : GameStats) (totalTime : Int) (k : Nat) :
    playGameLoop sh handTime shuffleTime maxGameTime (fuel + 1) pA pB stats totalTime k =
      if loopCond maxGameTime pA pB stats totalTime then
        playGameStep sh handTime shuffleTime maxGameTime
          (playGameLoop sh handTime shuffleTime maxGameTime fuel)
          pA pB stats totalTime k
      else some (pA, pB, stats, totalTime, k) :=
  rfl

/-- Go `playGame`, also returning the final player piles (needed to
state card conservation) and the next oracle index.  `k0` is the oracle
index at game start (`0` for a single game; `runSimulations` threads it
across games, mirroring Go's single process-wide random stream). -/
def playGameRun (sh : ShuffleOracle) (handTime shuffleTime : Int)
    (includeJokers : Bool) (maxGameTime : Int) (k0 : Nat) :
    Option (GameStats × Player × Player × Nat) :=
  let deck := sh k0 (createDeck includeJokers)
  let n := deck.length / 2
  let pA : Player := ⟨deck.take n, []⟩
  let pB : Player := ⟨deck.drop n, []⟩
  match playGameLoop sh handTime shuffleTime maxGameTime 100001
      pA pB ({} : GameStats) 0 (k0 + 1) with
  | none => none
  | some (pA1, pB1, stats, totalTime, k) =>
    let finished := totalCards pA1 = 0 ∨ totalCards pB1 = 0
    let stats1 := { stats with finished := decide finished }
    let stats2 :=
      if stats1.finished then
        if totalCards pA1 = 0 then { stats1 with winner := 2 }
        else { stats1 with winner := 1 }
      else stats1
    some ({ stats2 with gameDuration := totalTime }, pA1, pB1, k)

/-- Go `playGame` (statistics only). -/
def playGame (sh : ShuffleOracle) (handTime shuffleTime : Int)
    (includeJokers : Bool) (maxGameTime : Int) (k0 : Nat) :
    Option GameStats :=
  (playGameRun sh handTime shuffleTime includeJokers maxGameTime k0).map
    fun r => r.1

/-- The loop body of Go `runSimulations`: `n` games remaining, next game
number `i`, oracle index `k`.  The `none` fuel-exhaustion case (which a
real run never reaches) is mapped to the sentinel record that the Go
`recover` handler writes (`Tricks: -1`, `Finished: false`). -/
def runSimulationsAux (sh : ShuffleOracle) (handTime shuffleTime : Int)
    (includeJokers : Bool) (maxGameTime : Int) :
    Nat → Int → Nat → List GameStats
  | 0, _, _ => []
  | n + 1, i, k =>
    match playGameRun sh handTime shuffleTime includeJokers maxGameTime k with
    | some (s, _, _, k2) =>
      { s with gameNumber := i } ::
        runSimulationsAux sh handTime shuffleTime includeJokers maxGameTime n (i + 1) k2
    | none =>
      { gameNumber := i, tricks := -1, finished := false } ::
        runSimulationsAux sh handTime shuffleTime includeJokers maxGameTime n (i + 1) k

/-- Go `runSimulations`.  Its first statement,
`make([]GameStats, gamesToPlay)`, panics at runtime when `gamesToPlay`
is negative, and that panic is *not* caught: the per-game `recover`
handler sits inside the loop body's closure, so a negative count
crashes the whole process before any simulation starts.  This crash
path is modelled as `none`.  For a non-negative count the function
plays `gamesToPlay` games (zero games for a zero count, as the `for`
loop does), numbering them from 1, with no validation of the other
configuration values. -/
def runSimulations (sh : ShuffleOracle) (gamesToPlay handTime shuffleTime : Int)
    (includeJokers : Bool) (maxGameTime : Int) : Option (List GameStats) :=
  if gamesToPlay < 0 then none
  else
    some (runSimulationsAux sh handTime shuffleTime includeJokers maxGameTime
      gamesToPlay.toNat 1 0)

/-! ## Basic lemmas about the draw operation -/

/-- Drawing from a non-empty draw pile pops its front card. -/
theorem drawCard_cons (sh : ShuffleOracle) (c : Card) (rest w : List Card) (k : Nat) :
    drawCard sh ⟨c :: rest, w⟩ k = (c, 0, ⟨rest, w⟩, k) :=
  rfl

/-- Drawing from a non-empty draw pile, head-form. -/
theorem drawCard_of_ne_nil (sh : ShuffleOracle) (p : Player) (k : Nat)
    (h : p.drawPile ≠ []) :
    drawCard sh p k =
      (p.drawPile.headD ⟨0⟩, 0, ⟨p.drawPile.tail, p.winningsPile⟩, k) := by
  obtain ⟨dp, wp⟩ := p
  cases dp with
  | nil => exact absurd rfl h
  | cons c rest => rfl

/-- Drawing with an empty draw pile but non-empty winnings pile
reshuffles (one oracle call) and returns the front card of the
reshuffled pile — without removing it. -/
theorem drawCard_reshuffle (sh : ShuffleOracle) (w : List Card) (k : Nat)
    (hw : w ≠ []) :
    drawCard sh ⟨[], w⟩ k =
      ((sh k w).headD ⟨0⟩, 1, ⟨sh k w, []⟩, k + 1) := by
  cases w with
  | nil => exact absurd rfl hw
  | cons c cs => rfl

/-- Drawing with both piles empty returns the `Card{}` sentinel. -/
theorem drawCard_empty (sh : ShuffleOracle) (k : Nat) :
    drawCard sh ⟨[], []⟩ k = (⟨0⟩, 0, ⟨[], []⟩, k) :=
  rfl

/-! ## Card-count lemmas about `drawWarCards` -/

/-- A war draw never increases the drawing player's holding (with a
genuine, length-preserving shuffle). -/
theorem drawWarCardsAux_total_le (sh : ShuffleOracle) (hsh : LengthPreserving sh)
    (handTime shuffleTime : Int) :
    ∀ (n : Nat) (cards : List Card) (p : Player) (s t : Int) (k : Nat),
      totalCards (drawWarCardsAux sh handTime shuffleTime n cards p s t k).2.1 ≤
        totalCards p := by
  intro n
  induction n with
  | zero => intro cards p s t k; exact Nat.le_refl _
  | succ m ih =>
    intro cards p s t k
    obtain ⟨dp, wp⟩ := p
    cases hdp : dp with
    | cons c rest =>
      simp only [drawWarCardsAux, drawCard_cons]
      by_cases hblank : c = (⟨0⟩ : Card)
      · simp only [if_pos hblank]
        simp [totalCards]
      · simp only [if_neg hblank]
        calc totalCards (drawWarCardsAux sh handTime shuffleTime m
                (cards ++ [c]) ⟨rest, wp⟩ s (t + handTime) k).2.1 ≤
              totalCards ⟨rest, wp⟩ := ih _ _ _ _ _
          _ ≤ totalCards ⟨c :: rest, wp⟩ := by
              simp only [totalCards, List.length_cons]; omega
    | nil =>
      cases hwp : wp with
      | nil => simp [drawWarCardsAux, drawCard_empty, totalCards]
      | cons c cs =>
        have hne : (c :: cs : List Card) ≠ [] := by simp
        simp only [drawWarCardsAux, drawCard_reshuffle sh (c :: cs) k hne]
        have htot : totalCards ⟨sh k (c :: cs), []⟩ = totalCards ⟨[], c :: cs⟩ := by
          simp [totalCards, hsh k (c :: cs)]
        by_cases hblank : (sh k (c :: cs)).headD ⟨0⟩ = (⟨0⟩ : Card)
        · simp only [if_pos hblank]
          simp only [htot]
          exact Nat.le_refl _
        · simp only [if_neg hblank]
          calc totalCards (drawWarCardsAux sh handTime shuffleTime m
                  (cards ++ [(sh k (c :: cs)).headD ⟨0⟩]) ⟨sh k (c :: cs), []⟩
                  (s + 1) (t + shuffleTime + handTime) (k + 1)).2.1 ≤
                totalCards ⟨sh k (c :: cs), []⟩ := ih _ _ _ _ _
            _ = totalCards ⟨[], c :: cs⟩ := htot

/-- A player holding no cards contributes no war cards and is left
unchanged (only the hand-time charge of the failed draw is made). -/
theorem drawWarCards_of_total_zero (sh : ShuffleOracle) (handTime shuffleTime : Int)
    (p : Player) (s t : Int) (k : Nat) (h : totalCards p = 0) :
    drawWarCards sh handTime shuffleTime p s t k = ([], p, s, t + handTime, k) := by
  obtain ⟨dp, wp⟩ := p
  simp only [totalCards] at h
  obtain ⟨h1, h2⟩ := Nat.add_eq_zero.mp h
  rw [List.length_eq_zero] at h1 h2
  subst h1; subst h2
  rfl

/-- One-step unfolding of the war-draw loop on a non-empty draw pile:
the front card is popped, charged, and (unless it is the sentinel)
collected. -/
theorem drawWarCardsAux_cons (sh : ShuffleOracle) (handTime shuffleTime : Int)
    (n : Nat) (cards : List Card) (c : Card) (rest w : List Card)
    (s t : Int) (k : Nat) :
    drawWarCardsAux sh handTime shuffleTime (n + 1) cards ⟨c :: rest, w⟩ s t k =
      if c = (⟨0⟩ : Card) then (cards, ⟨rest, w⟩, s, t + handTime, k)
      else drawWarCardsAux sh handTime shuffleTime n
        (cards ++ [c]) ⟨rest, w⟩ s (t + handTime) k :=
  rfl

/-- One-step unfolding of the war-draw loop on an empty draw pile with
non-empty winnings: reshuffle, charge, and look at the front card of the
reshuffled pile (which `drawCard` does not remove). -/
theorem drawWarCardsAux_reshuffle (sh : ShuffleOracle) (handTime shuffleTime : Int)
    (n : Nat) (cards : List Card) (c : Card) (cs : List Card)
    (s t : Int) (k : Nat) :
    drawWarCardsAux sh handTime shuffleTime (n + 1) cards ⟨[], c :: cs⟩ s t k =
      (if (sh k (c :: cs)).headD ⟨0⟩ = (⟨0⟩ : Card) then
        (cards, ⟨sh k (c :: cs), []⟩, s + 1, t + shuffleTime + handTime, k + 1)
      else drawWarCardsAux sh handTime shuffleTime n
        (cards ++ [(sh k (c :: cs)).headD ⟨0⟩]) ⟨sh k (c :: cs), []⟩
        (s + 1) (t + shuffleTime + handTime) (k + 1)) :=
  rfl

/-- If a war draw produced at least one card, the drawing player had at
least one card and ends the draw with strictly fewer cards than before
(the duplication slip of `drawCard` cannot fire twice in a row, because
a reshuffle empties the winnings pile). -/
theorem drawWarCards_total_lt (sh : ShuffleOracle) (hsh : LengthPreserving sh)
    (handTime shuffleTime : Int) (p : Player) (s t : Int) (k : Nat)
    (h : (drawWarCards sh handTime shuffleTime p s t k).1 ≠ []) :
    totalCards (drawWarCards sh handTime shuffleTime p s t k).2.1 < totalCards p := by
  obtain ⟨dp, wp⟩ := p
  cases hdp : dp with
  | cons c rest =>
    subst hdp
    unfold drawWarCards at h ⊢
    rw [drawWarCardsAux_cons] at h ⊢
    by_cases hblank : c = (⟨0⟩ : Card)
    · rw [if_pos hblank] at h
      simp at h
    · rw [if_neg hblank]
      calc totalCards (drawWarCardsAux sh handTime shuffleTime 3
              ([] ++ [c]) ⟨rest, wp⟩ s (t + handTime) k).2.1 ≤
            totalCards ⟨rest, wp⟩ := drawWarCardsAux_total_le sh hsh _ _ _ _ _ _ _ _
        _ < totalCards ⟨c :: rest, wp⟩ := by
            simp only [totalCards, List.length_cons]; omega
  | nil =>
    subst hdp
    cases hwp : wp with
    | nil =>
      subst hwp
      rw [drawWarCards_of_total_zero sh handTime shuffleTime ⟨[], []⟩ s t k rfl] at h
      simp at h
    | cons c cs =>
      subst hwp
      unfold drawWarCards at h ⊢
      rw [drawWarCardsAux_reshuffle] at h ⊢
      by_cases hblank : (sh k (c :: cs)).headD ⟨0⟩ = (⟨0⟩ : Card)
      · rw [if_pos hblank] at h
        simp at h
      · rw [if_neg hblank] at h ⊢
        have hlen : (sh k (c :: cs)).length = cs.length + 1 := by
          rw [hsh k (c :: cs)]; simp
        obtain ⟨x, xs, hx⟩ : ∃ x xs, sh k (c :: cs) = x :: xs := by
          cases hsk : sh k (c :: cs) with
          | nil => rw [hsk] at hlen; simp at hlen
          | cons x xs => exact ⟨x, xs, rfl⟩
        rw [hx] at h ⊢
        rw [drawWarCardsAux_cons] at h ⊢
        have hxs : xs.length = cs.length := by
          rw [hx] at hlen; simpa using hlen
        by_cases hblank2 : x = (⟨0⟩ : Card)
        · rw [if_pos hblank2]
          simp [totalCards, hxs]
        · rw [if_neg hblank2]
          calc totalCards (drawWarCardsAux sh handTime shuffleTime 2
                  (([] ++ [(x :: xs).headD ⟨0⟩]) ++ [x]) ⟨xs, []⟩
                  (s + 1) (t + shuffleTime + handTime + handTime) (k + 1)).2.1 ≤
                totalCards ⟨xs, []⟩ := drawWarCardsAux_total_le sh hsh _ _ _ _ _ _ _ _
            _ < totalCards ⟨[], c :: cs⟩ := by simp [totalCards, hxs]

/-! ## Lemmas about `handleWar` -/

/-- Applied form of the zero-fuel equation. -/
theorem handleWar_zero_app (sh : ShuffleOracle) (handTime shuffleTime maxGameTime : Int)
    (pA pB : Player) (wp : List Card) (stats : GameStats) (t : Int) (k : Nat) (d : Int) :
    handleWar sh handTime shuffleTime maxGameTime 0 pA pB wp stats t k d = none :=
  rfl

/-- Whenever `handleWar` returns, the result names winner 1 with one
A-trick or winner 2 with one B-trick, and the statistics fields that the
war code never touches (tricks, per-player trick wins, winner, finished,
game number, duration) are returned unchanged. -/
theorem handleWar_spec (sh : ShuffleOracle) (handTime shuffleTime maxGameTime : Int) :
    ∀ (fuel : Nat) (pA pB : Player) (wp : List Card) (stats : GameStats)
      (t : Int) (k : Nat) (d : Int) (r : WarResult) (pA2 pB2 : Player)
      (stats2 : GameStats) (t2 : Int) (k2 : Nat),
      handleWar sh handTime shuffleTime maxGameTime fuel pA pB wp stats t k d =
        some (r, pA2, pB2, stats2, t2, k2) →
      (r = ⟨1, 1, 0⟩ ∨ r = ⟨2, 0, 1⟩) ∧
      stats2.tricks = stats.tricks ∧
      stats2.playerATricks = stats.playerATricks ∧
      stats2.playerBTricks = stats.playerBTricks ∧
      stats2.winner = stats.winner ∧
      stats2.finished = stats.finished ∧
      stats2.gameNumber = stats.gameNumber := by
  intro fuel
  induction fuel with
  | zero =>
    intro pA pB wp stats t k d r pA2 pB2 stats2 t2 k2 h
    rw [handleWar_zero_app] at h
    exact absurd h (by simp)
  | succ fuel ih =>
    intro pA pB wp stats t k d r pA2 pB2 stats2 t2 k2 h
    rw [handleWar_succ] at h
    simp only [handleWarStep] at h
    by_cases htime : t + handTime ≥ maxGameTime
    · rw [if_pos htime] at h
      simp only [Option.some.injEq, Prod.mk.injEq] at h
      obtain ⟨hr, _, _, hstats, _⟩ := h
      subst hstats
      refine ⟨?_, by simp, by simp, by simp, by simp, by simp, by simp⟩
      rw [← hr]
      unfold timeoutResult
      by_cases hcmp : totalCards pA > totalCards pB
      · rw [if_pos hcmp]; exact Or.inl rfl
      · rw [if_neg hcmp]; exact Or.inr rfl
    · rw [if_neg htime] at h
      rcases hA : drawWarCards sh handTime shuffleTime pA stats.shufflesA (t + handTime) k
        with ⟨cardsA, pAx, sAx, tx, kx⟩
      rw [hA] at h
      rcases hB : drawWarCards sh handTime shuffleTime pB stats.shufflesB tx kx
        with ⟨cardsB, pBx, sBx, ty, ky⟩
      rw [hB] at h
      simp only [] at h
      by_cases hlen : cardsA.length = 0 ∨ cardsB.length = 0
      · rw [if_pos hlen] at h
        simp only [Option.some.injEq, Prod.mk.injEq] at h
        obtain ⟨hr, _, _, hstats, _⟩ := h
        subst hstats
        refine ⟨?_, by simp, by simp, by simp, by simp, by simp, by simp⟩
        rw [← hr]
        unfold determineWarWinner
        by_cases hA0 : cardsA.length = 0
        · rw [if_pos hA0]; exact Or.inr rfl
        · rw [if_neg hA0]; exact Or.inl rfl
      · rw [if_neg hlen] at h
        by_cases hrank : (cardsA.getLastD ⟨0⟩).rank = (cardsB.getLastD ⟨0⟩).rank
        · rw [if_pos hrank] at h
          simp only [handleDeepWarWith] at h
          by_cases hz1 : totalCards pAx = 0
          · rw [if_pos hz1] at h
            simp only [Option.some.injEq, Prod.mk.injEq] at h
            obtain ⟨hr, _, _, hstats, _⟩ := h
            subst hstats
            exact ⟨Or.inr hr.symm, by simp, by simp, by simp, by simp, by simp, by simp⟩
          · rw [if_neg hz1] at h
            by_cases hz2 : totalCards pBx = 0
            · rw [if_pos hz2] at h
              simp only [Option.some.injEq, Prod.mk.injEq] at h
              obtain ⟨hr, _, _, hstats, _⟩ := h
              subst hstats
              exact ⟨Or.inl hr.symm, by simp, by simp, by simp, by simp, by simp, by simp⟩
            · rw [if_neg hz2] at h
              obtain ⟨hres, h1, h2, h3, h4, h5, h6⟩ := ih _ _ _ _ _ _ _ _ _ _ _ _ _ h
              refine ⟨hres, ?_, ?_, ?_, ?_, ?_, ?_⟩ <;>
                simp_all
        · rw [if_neg hrank] at h
          by_cases hgt : (cardsA.getLastD ⟨0⟩).rank > (cardsB.getLastD ⟨0⟩).rank
          · rw [if_pos hgt] at h
            simp only [Option.some.injEq, Prod.mk.injEq] at h
            obtain ⟨hr, _, _, hstats, _⟩ := h
            subst hstats
            exact ⟨Or.inl hr.symm, by simp, by simp, by simp, by simp, by simp, by simp⟩
          · rw [if_neg hgt] at h
            simp only [Option.some.injEq, Prod.mk.injEq] at h
            obtain ⟨hr, _, _, hstats, _⟩ := h
            subst hstats
            exact ⟨Or.inr hr.symm, by simp, by simp, by simp, by simp, by simp, by simp⟩

/-- Fuel sufficiency for wars: with a genuine shuffle, `handleWar` with
one more fuel than the two players' combined holding always returns.
Each recursive war level strictly decreases both (non-empty) holdings,
so the recursion depth is bounded by the deck size. -/
theorem handleWar_isSome (sh : ShuffleOracle) (hsh : LengthPreserving sh)
    (handTime shuffleTime maxGameTime : Int) :
    ∀ (fuel : Nat) (pA pB : Player) (wp : List Card) (stats : GameStats)
      (t : Int) (k : Nat) (d : Int),
      totalCards pA + totalCards pB + 1 ≤ fuel →
      (handleWar sh handTime shuffleTime maxGameTime fuel pA pB wp stats t k d).isSome := by
  intro fuel
  induction fuel with
  | zero =>
    intro pA pB wp stats t k d hle
    exact absurd hle (by omega)
  | succ fuel ih =>
    intro pA pB wp stats t k d hle
    rw [handleWar_succ]
    simp only [handleWarStep]
    by_cases htime : t + handTime ≥ maxGameTime
    · rw [if_pos htime]; simp
    · rw [if_neg htime]
      rcases hA : drawWarCards sh handTime shuffleTime pA stats.shufflesA (t + handTime) k
        with ⟨cardsA, pAx, sAx, tx, kx⟩
      simp only []
      rcases hB : drawWarCards sh handTime shuffleTime pB stats.shufflesB tx kx
        with ⟨cardsB, pBx, sBx, ty, ky⟩
      simp only []
      by_cases hlen : cardsA.length = 0 ∨ cardsB.length = 0
      · rw [if_pos hlen]; simp
      · rw [if_neg hlen]
        by_cases hrank : (cardsA.getLastD ⟨0⟩).rank = (cardsB.getLastD ⟨0⟩).rank
        · rw [if_pos hrank]
          simp only [handleDeepWarWith]
          by_cases hz1 : totalCards pAx = 0
          · rw [if_pos hz1]; simp
          · rw [if_neg hz1]
            by_cases hz2 : totalCards pBx = 0
            · rw [if_pos hz2]; simp
            · rw [if_neg hz2]
              push_neg at hlen
              obtain ⟨hlA, hlB⟩ := hlen
              have hAne : cardsA ≠ [] := by
                intro hc; rw [hc] at hlA; exact hlA rfl
              have hBne : cardsB ≠ [] := by
                intro hc; rw [hc] at hlB; exact hlB rfl
              have hAlt : totalCards pAx < totalCards pA := by
                have := drawWarCards_total_lt sh hsh handTime shuffleTime pA
                  stats.shufflesA (t + handTime) k (by rw [hA]; exact hAne)
                rw [hA] at this; exact this
              have hBlt : totalCards pBx < totalCards pB := by
                have := drawWarCards_total_lt sh hsh handTime shuffleTime pB
                  stats.shufflesB tx kx (by rw [hB]; exact hBne)
                rw [hB] at this; exact this
              exact ih pAx pBx _ _ _ _ _ (by omega)
        · rw [if_neg hrank]
          by_cases hgt : (cardsA.getLastD ⟨0⟩).rank > (cardsB.getLastD ⟨0⟩).rank
          · rw [if_pos hgt]; simp
          · rw [if_neg hgt]; simp

/-! ## Lemmas about the trick loop -/

/-- Fuel sufficiency for the trick loop: the trick counter strictly
increases each round and the loop condition caps it at 100000, so any
fuel exceeding `100000 - tricks` never runs out. -/
theorem playGameLoop_isSome (sh : ShuffleOracle) (hsh : LengthPreserving sh)
    (handTime shuffleTime maxGameTime : Int) :
    ∀ (fuel : Nat) (pA pB : Player) (stats : GameStats) (t : Int) (k : Nat),
      (100000 : Int) < stats.tricks + (fuel : Int) →
      (playGameLoop sh handTime shuffleTime maxGameTime fuel pA pB stats t k).isSome := by
  intro fuel
  induction fuel with
  | zero =>
    intro pA pB stats t k hfuel
    rw [playGameLoop_zero]
    by_cases hcond : loopCond maxGameTime pA pB stats t
    · exact absurd hcond.2.2.1 (by push_cast at hfuel; omega)
    · rw [if_neg hcond]; simp
  | succ fuel ih =>
    intro pA pB stats t k hfuel
    rw [playGameLoop_succ]
    by_cases hcond : loopCond maxGameTime pA pB stats t
    · rw [if_pos hcond]
      simp only [playGameStep]
      rcases hDA : drawCard sh pA k with ⟨cardA, shuffledA, pA1, k1⟩
      simp only []
      rcases hDB : drawCard sh pB k1 with ⟨cardB, shuffledB, pB1, k2⟩
      simp only []
      by_cases hrank : cardA.rank = cardB.rank
      · rw [if_pos hrank]
        rcases hW : handleWar sh handTime shuffleTime maxGameTime
            (totalCards pA1 + totalCards pB1 + 1) pA1 pB1 [cardA, cardB]
            { stats with tricks := stats.tricks + 1,
                         shufflesA := stats.shufflesA + shuffledA,
                         shufflesB := stats.shufflesB + shuffledB }
            (t + handTime + (shuffledA + shuffledB) * shuffleTime) k2 1
          with _ | ⟨r, pA2, pB2, stats3, t3, k3⟩
        · have := handleWar_isSome sh hsh handTime shuffleTime maxGameTime
            (totalCards pA1 + totalCards pB1 + 1) pA1 pB1 [cardA, cardB]
            { stats with tricks := stats.tricks + 1,
                         shufflesA := stats.shufflesA + shuffledA,
                         shufflesB := stats.shufflesB + shuffledB }
            (t + handTime + (shuffledA + shuffledB) * shuffleTime) k2 1 (le_refl _)
          rw [hW] at this
          simp at this
        · simp only []
          obtain ⟨_, htricks, _⟩ := handleWar_spec sh handTime shuffleTime maxGameTime
            _ _ _ _ _ _ _ _ _ _ _ _ _ _ hW
          apply ih
          simp only [htricks]
          push_cast at hfuel ⊢
          omega
      · rw [if_neg hrank]
        by_cases hgt : cardA.rank > cardB.rank
        · rw [if_pos hgt]
          apply ih
          push_cast at hfuel ⊢
          omega
        · rw [if_neg hgt]
          apply ih
          push_cast at hfuel ⊢
          omega
    · rw [if_neg hcond]; simp

/-- Frame and invariant transport along the trick loop: the loop never
touches the winner, finished and game-number fields; it preserves the
accounting invariant `playerATricks + playerBTricks = tricks`; and it
preserves the invariant that not both players are empty (each trick
hands at least the two face-up cards to the trick winner). -/
theorem playGameLoop_frame (sh : ShuffleOracle) (handTime shuffleTime maxGameTime : Int) :
    ∀ (fuel : Nat) (pA pB : Player) (stats : GameStats) (t : Int) (k : Nat)
      (pA2 pB2 : Player) (stats2 : GameStats) (t2 : Int) (k2 : Nat),
      playGameLoop sh handTime shuffleTime maxGameTime fuel pA pB stats t k =
        some (pA2, pB2, stats2, t2, k2) →
      stats2.winner = stats.winner ∧
      stats2.finished = stats.finished ∧
      stats2.gameNumber = stats.gameNumber ∧
      (stats.playerATricks + stats.playerBTricks = stats.tricks →
        stats2.playerATricks + stats2.playerBTricks = stats2.tricks) ∧
      (¬(totalCards pA = 0 ∧ totalCards pB = 0) →
        ¬(totalCards pA2 = 0 ∧ totalCards pB2 = 0)) := by
  intro fuel
  induction fuel with
  | zero =>
    intro pA pB stats t k pA2 pB2 stats2 t2 k2 h
    rw [playGameLoop_zero] at h
    by_cases hcond : loopCond maxGameTime pA pB stats t
    · rw [if_pos hcond] at h
      exact absurd h (by simp)
    · rw [if_neg hcond] at h
      simp only [Option.some.injEq, Prod.mk.injEq] at h
      obtain ⟨h1, h2, h3, h4, h5⟩ := h
      subst h1; subst h2; subst h3
      exact ⟨rfl, rfl, rfl, fun hp => hp, fun hi => hi⟩
  | succ fuel ih =>
    intro pA pB stats t k pA2 pB2 stats2 t2 k2 h
    rw [playGameLoop_succ] at h
    by_cases hcond : loopCond maxGameTime pA pB stats t
    · rw [if_pos hcond] at h
      simp only [playGameStep] at h
      rcases hDA : drawCard sh pA k with ⟨cardA, shuffledA, pA1, k1⟩
      rw [hDA] at h
      simp only [] at h
      rcases hDB : drawCard sh pB k1 with ⟨cardB, shuffledB, pB1, k2x⟩
      rw [hDB] at h
      simp only [] at h
      by_cases hrank : cardA.rank = cardB.rank
      · rw [if_pos hrank] at h
        rcases hW : handleWar sh handTime shuffleTime maxGameTime
            (totalCards pA1 + totalCards pB1 + 1) pA1 pB1 [cardA, cardB]
            { stats with tricks := stats.tricks + 1,
                         shufflesA := stats.shufflesA + shuffledA,
                         shufflesB := stats.shufflesB + shuffledB }
            (t + handTime + (shuffledA + shuffledB) * shuffleTime) k2x 1
          with _ | ⟨r, pA2x, pB2x, stats3, t3, k3⟩
        · rw [hW] at h
          exact absurd h (by simp)
        · rw [hW] at h
          simp only [] at h
          obtain ⟨hres, htricks, hpat, hpbt, hwin, hfin, hgn⟩ :=
            handleWar_spec sh handTime shuffleTime maxGameTime
              _ _ _ _ _ _ _ _ _ _ _ _ _ _ hW
          obtain ⟨f1, f2, f3, f4, f5⟩ := ih _ _ _ _ _ _ _ _ _ _ h
          refine ⟨?_, ?_, ?_, ?_, ?_⟩
          · rw [f1]; simpa using hwin
          · rw [f2]; simpa using hfin
          · rw [f3]; simpa using hgn
          · intro hp
            apply f4
            rcases hres with rfl | rfl <;>
              (simp only [htricks, hpat, hpbt]; omega)
          · intro _
            apply f5
            rcases hres with rfl | rfl
            · intro hcontra
              obtain ⟨hza, _⟩ := hcontra
              simp [totalCards] at hza
            · intro hcontra
              obtain ⟨_, hzb⟩ := hcontra
              simp [totalCards] at hzb
      · rw [if_neg hrank] at h
        by_cases hgt : cardA.rank > cardB.rank
        · rw [if_pos hgt] at h
          obtain ⟨f1, f2, f3, f4, f5⟩ := ih _ _ _ _ _ _ _ _ _ _ h
          refine ⟨by simpa using f1, by simpa using f2, by simpa using f3, ?_, ?_⟩
          · intro hp
            apply f4
            simp only [GameStats.playerATricks, GameStats.playerBTricks, GameStats.tricks] at *
            omega
          · intro _
            apply f5
            intro hcontra
            obtain ⟨hza, _⟩ := hcontra
            simp [totalCards] at hza
        · rw [if_neg hgt] at h
          obtain ⟨f1, f2, f3, f4, f5⟩ := ih _ _ _ _ _ _ _ _ _ _ h
          refine ⟨by simpa using f1, by simpa using f2, by simpa using f3, ?_, ?_⟩
          · intro hp
            apply f4
            simp only [GameStats.playerATricks, GameStats.playerBTricks, GameStats.tricks] at *
            omega
          · intro _
            apply f5
            intro hcontra
            obtain ⟨_, hzb⟩ := hcontra
            simp [totalCards] at hzb
    · rw [if_neg hcond] at h
      simp only [Option.some.injEq, Prod.mk.injEq] at h
      obtain ⟨h1, h2, h3, h4, h5⟩ := h
      subst h1; subst h2; subst h3
      exact ⟨rfl, rfl, rfl, fun hp => hp, fun hi => hi⟩

/-- `runSimulationsAux` produces exactly one record per remaining game,
whatever the configuration. -/
theorem runSimulationsAux_length (sh : ShuffleOracle) (handTime shuffleTime : Int)
    (includeJokers : Bool) (maxGameTime : Int) :
    ∀ (n : Nat) (i : Int) (k : Nat),
      (runSimulationsAux sh handTime shuffleTime includeJokers maxGameTime n i k).length = n := by
  intro n
  induction n with
  | zero => intro i k; rfl
  | succ m ih =>
    intro i k
    simp only [runSimulationsAux]
    split <;> simp [ih]

/-! ## The claims -/

/-- C1: the claim states card conservation
(`|A.draw|+|A.winnings|+|B.draw|+|B.winnings|` equals the 52-card deck
size at every trick boundary).  The code violates it: `warShuffle` deals
a legal permutation of the 52-card deck in which trick 1 is a war, and
after that single trick the two players together hold only 44 cards —
the eight cards drawn into the war pile by `drawWarCards` are lost,
because Go's `handleWar` appends them to a by-value slice that the
caller never sees.  The spec (and the rules of War) clearly intend
conservation, so this is a defect of the code. -/
theorem card_conservation_broken_in_code :
    List.Perm warDeck (createDeck false) ∧
    (createDeck false).length = 52 ∧
    (playGameRun warShuffle 1 1 false 3 0).map
      (fun r => totalCards r.2.1 + totalCards r.2.2.1) = some 44 :=
  ⟨by decide, by decide, by decide⟩

/-- C2: the claim states that a draw from an empty draw pile with
non-empty winnings pops the reshuffled pile's front card, so the
player's total decreases by one.  The code returns the front card
*without removing it*: below, the player holding exactly the rank-7 card
in the winnings pile draws it, yet still holds it (total 1, not 0) — the
card now exists both in play and in the draw pile.  The reshuffle
signal (1) and the emptied winnings pile match the claim; the missing
pop is a defect of the code (the non-reshuffle branch does pop). -/
theorem drawCard_reshuffle_duplicates_front_card :
    drawCard idShuffle ⟨[], [⟨7⟩]⟩ 0 = (⟨7⟩, 1, ⟨[⟨7⟩], []⟩, 1) ∧
    totalCards ⟨[⟨7⟩], []⟩ = 1 :=
  ⟨rfl, rfl⟩

/-- C3: the claim states the war winner's winnings pile receives the
*entire* accumulated war pile.  In the code the winner receives only the
two initial cards: in the `warShuffle` game the single war commits ten
cards (2 initial + 3 + 3 face-down + 2 comparison), player B wins it,
yet B's winnings pile afterwards is exactly the two initial rank-2
cards; the other eight cards are awarded to nobody (Go passes `warPile`
by value, so the callee's appends are invisible to `playGame`). -/
theorem war_pile_transfer_lost_in_code :
    (playGameRun warShuffle 1 1 false 3 0).map
      (fun r => (r.1.tricks, r.1.wars, r.2.2.1.winningsPile)) =
      some (1, 1, [⟨2⟩, ⟨2⟩]) :=
  by decide

/-- C4 counterexample: the claim says a timed-out war with equal
holdings is awarded to player A.  With both players holding one card
(equal totals) and the ceiling already reached, `handleWar` awards the
war to player B (winner 2), because `timeoutResult`'s `else` branch
covers ties. -/
theorem war_timeout_tie_awards_player_B :
    totalCards ⟨[⟨2⟩], []⟩ = totalCards ⟨[⟨3⟩], []⟩ ∧
    (handleWar idShuffle 5 1 3 1 ⟨[⟨2⟩], []⟩ ⟨[⟨3⟩], []⟩ [] {} 0 0 1).map
      (fun r => r.1.winner) = some 2 :=
  ⟨rfl, by decide⟩

/-- C4 (amended): when elapsed time reaches the ceiling after the war
comparison's hand-time charge, the war resolves immediately via
`timeoutResult`: strictly more total cards wins, and equal totals are
awarded to player B (not A as the claim stated). -/
theorem war_timeout_escape_valve (sh : ShuffleOracle)
    (handTime shuffleTime maxGameTime : Int) (fuel : Nat) (pA pB : Player)
    (warPile : List Card) (stats : GameStats) (totalTime : Int) (k : Nat) (depth : Int)
    (h : totalTime + handTime ≥ maxGameTime) :
    handleWar sh handTime shuffleTime maxGameTime (fuel + 1)
        pA pB warPile stats totalTime k depth =
      some (timeoutResult pA pB, pA, pB,
        { stats with wars := stats.wars + 1,
                     totalWarDepth := stats.totalWarDepth + depth },
        totalTime + handTime, k) ∧
    (totalCards pA > totalCards pB → timeoutResult pA pB = ⟨1, 1, 0⟩) ∧
    (totalCards pA ≤ totalCards pB → timeoutResult pA pB = ⟨2, 0, 1⟩) := by
  refine ⟨?_, ?_, ?_⟩
  · rw [handleWar_succ]
    simp only [handleWarStep]
    rw [if_pos h]
  · intro hgt
    unfold timeoutResult
    rw [if_pos hgt]
  · intro hle
    unfold timeoutResult
    rw [if_neg (by omega)]

/-- Witness for the amended C4 theorem at a concrete input (player A
holds two cards, player B one, the ceiling is already exceeded). -/
theorem war_timeout_escape_valve_witness :
    ((0 : Int) + 5 ≥ 3) ∧
    (handleWar idShuffle 5 1 3 (0 + 1) ⟨[⟨2⟩, ⟨2⟩], []⟩ ⟨[⟨3⟩], []⟩ [] {} 0 0 1 =
      some (timeoutResult ⟨[⟨2⟩, ⟨2⟩], []⟩ ⟨[⟨3⟩], []⟩, ⟨[⟨2⟩, ⟨2⟩], []⟩, ⟨[⟨3⟩], []⟩,
        { ({} : GameStats) with wars := ({} : GameStats).wars + 1,
                                totalWarDepth := ({} : GameStats).totalWarDepth + 1 },
        0 + 5, 0) ∧
      (totalCards ⟨[⟨2⟩, ⟨2⟩], []⟩ > totalCards ⟨[⟨3⟩], []⟩ →
        timeoutResult ⟨[⟨2⟩, ⟨2⟩], []⟩ ⟨[⟨3⟩], []⟩ = ⟨1, 1, 0⟩) ∧
      (totalCards ⟨[⟨2⟩, ⟨2⟩], []⟩ ≤ totalCards ⟨[⟨3⟩], []⟩ →
        timeoutResult ⟨[⟨2⟩, ⟨2⟩], []⟩ ⟨[⟨3⟩], []⟩ = ⟨2, 0, 1⟩)) :=
  ⟨by decide,
   war_timeout_escape_valve idShuffle 5 1 3 0 ⟨[⟨2⟩, ⟨2⟩], []⟩ ⟨[⟨3⟩], []⟩ [] {} 0 0 1
     (by decide)⟩

/-- C7 counterexample: the claim says a malformed configuration
(negative hand time here) is rejected before any simulation starts, with
no games run and no per-game records produced.  The code performs no
validation at all: with hand time −5 ms, `runSimulations` plays the
requested game to completion and returns a normal per-game record
(26 tricks, finished, player B wins). -/
theorem malformed_config_still_runs_games :
    ((-5 : Int) < 0) ∧
    (runSimulations idShuffle 1 (-5) 15000 false 3600000).map
      (fun l => l.map fun s => (s.gameNumber, s.tricks, s.finished, s.winner)) =
      some [(1, 26, true, 2)] :=
  ⟨by decide, by decide⟩

/-- C7 (amended): no configuration validation and no surfaced
configuration error exist anywhere in the pipeline.  A configuration
with a non-negative game count simply runs — malformed time values
included — and yields exactly `gamesToPlay` per-game records; a
negative game count is not rejected either: it crashes the process with
an uncaught `make`-slice panic before any simulation (modelled as
`none`), which is a crash, not a configuration error surfaced to the
caller. -/
theorem runSimulations_no_validation (sh : ShuffleOracle)
    (gamesToPlay handTime shuffleTime : Int) (includeJokers : Bool) (maxGameTime : Int) :
    (0 ≤ gamesToPlay →
      ∃ l, runSimulations sh gamesToPlay handTime shuffleTime includeJokers maxGameTime =
        some l ∧ l.length = gamesToPlay.toNat) ∧
    (gamesToPlay < 0 →
      runSimulations sh gamesToPlay handTime shuffleTime includeJokers maxGameTime =
        none) := by
  constructor
  · intro hge
    unfold runSimulations
    rw [if_neg (by omega)]
    exact ⟨_, rfl,
      runSimulationsAux_length sh handTime shuffleTime includeJokers maxGameTime
        gamesToPlay.toNat 1 0⟩
  · intro hlt
    unfold runSimulations
    rw [if_pos hlt]

/-- Witness for the amended C7 theorem: a two-game batch at a
non-negative count, and the crash at count −1. -/
theorem runSimulations_no_validation_witness :
    (((0 : Int) ≤ 2) ∧
      ∃ l, runSimulations idShuffle 2 500 15000 false 3600000 = some l ∧
        l.length = (2 : Int).toNat) ∧
    (((-1 : Int) < 0) ∧
      runSimulations idShuffle (-1) 500 15000 false 3600000 = none) :=
  ⟨⟨by decide,
    (runSimulations_no_validation idShuffle 2 500 15000 false 3600000).1 (by decide)⟩,
   ⟨by decide,
    (runSimulations_no_validation idShuffle (-1) 500 15000 false 3600000).2 (by decide)⟩⟩

/-- C10: `playGame` terminates for every configuration and every
(genuine, length-preserving) shuffle sequence: the trick loop runs at
most 100000 iterations because the trick counter strictly increases,
and the war recursion is bounded because every war level strictly
decreases each non-empty player's holding
(`drawWarCards_total_lt`), so the fuel supplied in the embedding is
never exhausted and a result is always produced. -/
theorem playGame_terminates (sh : ShuffleOracle) (hsh : LengthPreserving sh)
    (handTime shuffleTime : Int) (includeJokers : Bool) (maxGameTime : Int) (k0 : Nat) :
    (playGame sh handTime shuffleTime includeJokers maxGameTime k0).isSome := by
  unfold playGame
  rw [Option.isSome_map']
  simp only [playGameRun]
  split
  · next heq =>
    have h2 := playGameLoop_isSome sh hsh handTime shuffleTime maxGameTime 100001
      ⟨(sh k0 (createDeck includeJokers)).take
        ((sh k0 (createDeck includeJokers)).length / 2), []⟩
      ⟨(sh k0 (createDeck includeJokers)).drop
        ((sh k0 (createDeck includeJokers)).length / 2), []⟩
      {} 0 (k0 + 1) (by decide)
    rw [heq] at h2
    simp at h2
  · simp

/-- Witness for C10 at a concrete configuration. -/
theorem playGame_terminates_witness :
    (playGame idShuffle 500 15000 false 3600000 0).isSome :=
  playGame_terminates idShuffle (fun _ _ => rfl) 500 15000 false 3600000 0

/-- C9: whenever `playGame` returns, the two per-player trick-win
counters sum to the trick counter: every trick — ordinary, war,
deep war, war timeout or mid-war exhaustion — credits exactly one trick
win to exactly one player (`handleWar_spec`). -/
theorem trick_win_accounting (sh : ShuffleOracle) (handTime shuffleTime : Int)
    (includeJokers : Bool) (maxGameTime : Int) (k0 : Nat) (s : GameStats)
    (h : playGame sh handTime shuffleTime includeJokers maxGameTime k0 = some s) :
    s.playerATricks + s.playerBTricks = s.tricks := by
  unfold playGame at h
  rcases hrun : playGameRun sh handTime shuffleTime includeJokers maxGameTime k0
    with _ | ⟨s1, pA, pB, kk⟩
  · rw [hrun] at h; simp at h
  · rw [hrun] at h
    simp only [Option.map_some', Option.some.injEq] at h
    subst h
    simp only [playGameRun] at hrun
    split at hrun
    · exact absurd hrun (by simp)
    · next pA1 pB1 stats tt kk2 heq =>
      simp only [Option.some.injEq, Prod.mk.injEq] at hrun
      obtain ⟨hs, _⟩ := hrun
      obtain ⟨_, _, _, f4, _⟩ :=
        playGameLoop_frame sh handTime shuffleTime maxGameTime _ _ _ _ _ _ _ _ _ _ _ heq
      have hacc := f4 (by decide)
      subst hs
      split_ifs <;> simp_all

/-- Witness for C9: the zero-ceiling game returns immediately with the
empty statistics record, for which `0 + 0 = 0`. -/
theorem trick_win_accounting_witness :
    ({} : GameStats).playerATricks + ({} : GameStats).playerBTricks =
      ({} : GameStats).tricks :=
  trick_win_accounting idShuffle 500 15000 false 0 0 {} (by decide)

/-- C8: a finished game is exactly one whose loop-exit state has an
empty player; the winner field names the player still holding cards
(2 when A is empty, 1 when A is not — in which case B is empty); and a
game cut off by the trick or time ceiling with both players still
holding cards reports `finished = false` with the winner field left at
its unset zero value. -/
theorem termination_winner_spec (sh : ShuffleOracle) (hsh : LengthPreserving sh)
    (handTime shuffleTime : Int) (includeJokers : Bool) (maxGameTime : Int) (k0 : Nat)
    (s : GameStats) (pA pB : Player) (kEnd : Nat)
    (h : playGameRun sh handTime shuffleTime includeJokers maxGameTime k0 =
      some (s, pA, pB, kEnd)) :
    (s.finished = true ↔ (totalCards pA = 0 ∨ totalCards pB = 0)) ∧
    (s.finished = false → s.winner = 0 ∧ 0 < totalCards pA ∧ 0 < totalCards pB) ∧
    (s.finished = true →
      (totalCards pA = 0 → s.winner = 2 ∧ 0 < totalCards pB) ∧
      (totalCards pA ≠ 0 → s.winner = 1 ∧ totalCards pB = 0)) := by
  simp only [playGameRun] at h
  split at h
  · exact absurd h (by simp)
  · next pA1 pB1 stats tt kk2 heq =>
    simp only [Option.some.injEq, Prod.mk.injEq] at h
    obtain ⟨hs, hpa, hpb, hk⟩ := h
    subst hpa; subst hpb
    obtain ⟨f1, _, _, _, f5⟩ :=
      playGameLoop_frame sh handTime shuffleTime maxGameTime _ _ _ _ _ _ _ _ _ _ _ heq
    have hwin0 : stats.winner = 0 := by simpa using f1
    have hinv : ¬(totalCards pA1 = 0 ∧ totalCards pB1 = 0) := by
      apply f5
      intro hcontra
      obtain ⟨hA0, _⟩ := hcontra
      have hlen : 52 ≤ (sh k0 (createDeck includeJokers)).length := by
        rw [hsh]; cases includeJokers <;> decide
      have htake : (List.take ((sh k0 (createDeck includeJokers)).length / 2)
          (sh k0 (createDeck includeJokers))).length =
          (sh k0 (createDeck includeJokers)).length / 2 := by
        rw [List.length_take]; omega
      simp only [totalCards, htake, List.length_nil] at hA0
      omega
    have hsf : s.finished = decide (totalCards pA1 = 0 ∨ totalCards pB1 = 0) := by
      rw [← hs]; split_ifs <;> rfl
    by_cases hf : totalCards pA1 = 0 ∨ totalCards pB1 = 0
    · have hdec : decide (totalCards pA1 = 0 ∨ totalCards pB1 = 0) = true :=
        decide_eq_true hf
      have hfin : s.finished = true := by rw [hsf, hdec]
      refine ⟨by simp [hfin, hf], by simp [hfin], fun _ => ⟨?_, ?_⟩⟩
      · intro hA0
        have hwin : s.winner = 2 := by
          rw [← hs]
          simp [hdec, hA0]
        refine ⟨hwin, ?_⟩
        rcases Nat.eq_zero_or_pos (totalCards pB1) with hB0 | hBpos
        · exact absurd ⟨hA0, hB0⟩ hinv
        · exact hBpos
      · intro hA0
        have hB0 : totalCards pB1 = 0 := by
          rcases hf with hfa | hfb
          · exact absurd hfa hA0
          · exact hfb
        have hwin : s.winner = 1 := by
          rw [← hs]
          simp [hdec, hA0, hB0]
        exact ⟨hwin, hB0⟩
    · have hdec : decide (totalCards pA1 = 0 ∨ totalCards pB1 = 0) = false := by
        simpa using hf
      have hfin : s.finished = false := by rw [hsf, hdec]
      push_neg at hf
      obtain ⟨hA, hB⟩ := hf
      refine ⟨by simp [hfin, hA, hB], fun _ => ⟨?_, by omega, by omega⟩, by simp [hfin]⟩
      have hwin : s.winner = stats.winner := by
        rw [← hs]
        simp [hdec]
      rw [hwin, hwin0]

/-- Witness for C8 at a concrete input: the zero-ceiling game exits the
loop immediately, unfinished, with the winner field unset. -/
theorem termination_winner_spec_witness :
    ((({} : GameStats).finished = true ↔
      (totalCards ⟨(createDeck false).take 26, []⟩ = 0 ∨
       totalCards ⟨(createDeck false).drop 26, []⟩ = 0)) ∧
    (({} : GameStats).finished = false → ({} : GameStats).winner = 0 ∧
      0 < totalCards ⟨(createDeck false).take 26, []⟩ ∧
      0 < totalCards ⟨(createDeck false).drop 26, []⟩) ∧
    (({} : GameStats).finished = true →
      (totalCards ⟨(createDeck false).take 26, []⟩ = 0 →
        ({} : GameStats).winner = 2 ∧ 0 < totalCards ⟨(createDeck false).drop 26, []⟩) ∧
      (totalCards ⟨(createDeck false).take 26, []⟩ ≠ 0 →
        ({} : GameStats).winner = 1 ∧ totalCards ⟨(createDeck false).drop 26, []⟩ = 0))) :=
  termination_winner_spec idShuffle (fun _ _ => rfl) 500 15000 false 0 0
    {} ⟨(createDeck false).take 26, []⟩ ⟨(createDeck false).drop 26, []⟩ 1 (by decide)

/-- Executing exactly one trick: if the loop condition holds, both draw
piles are non-empty, both players hold at least two cards, and the
hand-time charge alone already reaches the ceiling, then the loop plays
exactly one trick (an eventual war times out before drawing) and exits
with both players non-empty. -/
theorem playGameLoop_one_trick (sh : ShuffleOracle)
    (handTime shuffleTime maxGameTime : Int) (fuel : Nat)
    (pA pB : Player) (stats : GameStats) (t : Int) (k : Nat)
    (hcond : loopCond maxGameTime pA pB stats t)
    (hAne : pA.drawPile ≠ []) (hBne : pB.drawPile ≠ [])
    (hA2 : 2 ≤ totalCards pA) (hB2 : 2 ≤ totalCards pB)
    (hstop1 : t + handTime ≥ maxGameTime)
    (hstop2 : t + handTime + handTime ≥ maxGameTime) :
    ∃ pA2 pB2 stats2 t2 k2,
      playGameLoop sh handTime shuffleTime maxGameTime (fuel + 2) pA pB stats t k =
        some (pA2, pB2, stats2, t2, k2) ∧
      stats2.tricks = stats.tricks + 1 ∧
      stats2.finished = stats.finished ∧
      stats2.winner = stats.winner ∧
      0 < totalCards pA2 ∧ 0 < totalCards pB2 := by
  have hlA : 0 < pA.drawPile.length := List.length_pos.mpr hAne
  have hlB : 0 < pB.drawPile.length := List.length_pos.mpr hBne
  have hA2l : 2 ≤ pA.drawPile.length + pA.winningsPile.length := hA2
  have hB2l : 2 ≤ pB.drawPile.length + pB.winningsPile.length := hB2
  have hf2 : fuel + 2 = (fuel + 1) + 1 := rfl
  rw [hf2, playGameLoop_succ, if_pos hcond]
  simp only [playGameStep]
  rw [drawCard_of_ne_nil sh pA k hAne]
  simp only []
  rw [drawCard_of_ne_nil sh pB k hBne]
  simp only []
  by_cases hrank : (pA.drawPile.headD ⟨0⟩).rank = (pB.drawPile.headD ⟨0⟩).rank
  · rw [if_pos hrank]
    rw [handleWar_succ]
    simp only [handleWarStep]
    rw [if_pos (show t + handTime + ((0 : Int) + 0) * shuffleTime + handTime ≥
      maxGameTime by simpa using hstop2)]
    simp only []
    rw [playGameLoop_succ,
      if_neg (show ¬loopCond maxGameTime _ _ _ _ from
        fun hc => absurd hc.2.2.2 (by intro hlt; simp at hlt; omega))]
    refine ⟨_, _, _, _, _, rfl, by simp, by simp, by simp, ?_, ?_⟩
    · by_cases hc : (timeoutResult ⟨pA.drawPile.tail, pA.winningsPile⟩
          ⟨pB.drawPile.tail, pB.winningsPile⟩).winner = 1
      · rw [if_pos hc]
        simp only [totalCards, List.length_append, List.length_tail]
        simp
      · rw [if_neg hc]
        simp only [totalCards, List.length_tail]
        omega
    · by_cases hc : (timeoutResult ⟨pA.drawPile.tail, pA.winningsPile⟩
          ⟨pB.drawPile.tail, pB.winningsPile⟩).winner = 2
      · rw [if_pos hc]
        simp only [totalCards, List.length_append, List.length_tail]
        simp
      · rw [if_neg hc]
        simp only [totalCards, List.length_tail]
        omega
  · rw [if_neg hrank]
    by_cases hgt : (pA.drawPile.headD ⟨0⟩).rank > (pB.drawPile.headD ⟨0⟩).rank
    · rw [if_pos hgt]
      rw [playGameLoop_succ,
        if_neg (show ¬loopCond maxGameTime _ _ _ _ from
          fun hc => absurd hc.2.2.2 (by intro hlt; simp at hlt; omega))]
      refine ⟨_, _, _, _, _, rfl, by simp, by simp, by simp, ?_, ?_⟩
      · simp only [totalCards, List.length_append, List.length_tail]
        simp
      · simp only [totalCards, List.length_tail]
        omega
    · rw [if_neg hgt]
      rw [playGameLoop_succ,
        if_neg (show ¬loopCond maxGameTime _ _ _ _ from
          fun hc => absurd hc.2.2.2 (by intro hlt; simp at hlt; omega))]
      refine ⟨_, _, _, _, _, rfl, by simp, by simp, by simp, ?_, ?_⟩
      · simp only [totalCards, List.length_tail]
        omega
      · simp only [totalCards, List.length_append, List.length_tail]
        simp

/-- C5 counterexample: with a positive ceiling (1 ms) smaller than one
hand-time cost (500 ms), `playGame` plays one trick, not zero: the loop
condition is checked with zero elapsed time before any cost is charged,
so the body runs once. -/
theorem tiny_ceiling_plays_one_trick_not_zero :
    (playGame idShuffle 500 15000 false 1 0).map (fun s => (s.tricks, s.finished)) =
      some (1, false) ∧ (1 : Int) ≠ 0 :=
  ⟨by decide, by decide⟩

/-- C5 (amended): for every genuine shuffle and every configuration
whose positive `maxGameTimeMs` is smaller than one `handTimeMs` cost,
`playGame` returns `finished = false` with exactly one trick played
(the time ceiling is checked before the trick's costs are charged). -/
theorem tiny_ceiling_unfinished_one_trick (sh : ShuffleOracle)
    (hsh : LengthPreserving sh) (handTime shuffleTime : Int)
    (includeJokers : Bool) (maxGameTime : Int) (k0 : Nat)
    (hpos : 0 < maxGameTime) (hlt : maxGameTime < handTime) :
    ∃ s, playGame sh handTime shuffleTime includeJokers maxGameTime k0 = some s ∧
      s.finished = false ∧ s.tricks = 1 := by
  have hlen : 52 ≤ (sh k0 (createDeck includeJokers)).length := by
    rw [hsh]; cases includeJokers <;> decide
  have htake : (List.take ((sh k0 (createDeck includeJokers)).length / 2)
      (sh k0 (createDeck includeJokers))).length =
      (sh k0 (createDeck includeJokers)).length / 2 := by
    rw [List.length_take]; omega
  have hdrop : (List.drop ((sh k0 (createDeck includeJokers)).length / 2)
      (sh k0 (createDeck includeJokers))).length =
      (sh k0 (createDeck includeJokers)).length -
        (sh k0 (createDeck includeJokers)).length / 2 := by
    rw [List.length_drop]
  obtain ⟨pA2, pB2, stats2, t2, k2, hloop, htr, hfin, hwinp, hposA, hposB⟩ :=
    playGameLoop_one_trick sh handTime shuffleTime maxGameTime 99999
      ⟨(sh k0 (createDeck includeJokers)).take
        ((sh k0 (createDeck includeJokers)).length / 2), []⟩
      ⟨(sh k0 (createDeck includeJokers)).drop
        ((sh k0 (createDeck includeJokers)).length / 2), []⟩
      {} 0 (k0 + 1)
      ⟨by simp only [totalCards, htake, List.length_nil]; omega,
       by simp only [totalCards, hdrop, List.length_nil]; omega,
       by decide, hpos⟩
      (by intro hnil
          simp only [] at hnil
          rw [hnil] at htake
          simp at htake
          omega)
      (by intro hnil
          simp only [] at hnil
          rw [hnil] at hdrop
          simp at hdrop
          omega)
      (by simp only [totalCards, htake, List.length_nil]; omega)
      (by simp only [totalCards, hdrop, List.length_nil]; omega)
      (by omega) (by omega)
  have hnf : ¬(totalCards pA2 = 0 ∨ totalCards pB2 = 0) := by omega
  have hdecf : decide (totalCards pA2 = 0 ∨ totalCards pB2 = 0) = false := by
    simp only [decide_eq_false_iff_not]
    exact hnf
  have hrun : playGameRun sh handTime shuffleTime includeJokers maxGameTime k0 =
      some ({ stats2 with finished := false, gameDuration := t2 }, pA2, pB2, k2) := by
    simp only [playGameRun]
    rw [show (100001 : Nat) = 99999 + 2 by norm_num, hloop]
    simp only [hdecf]
    simp
  refine ⟨{ stats2 with finished := false, gameDuration := t2 }, ?_, rfl, ?_⟩
  · unfold playGame
    rw [hrun]
    rfl
  · simp [htr]

/-- Witness for the amended C5 theorem at a concrete configuration
(hand time 500 ms, ceiling 1 ms). -/
theorem tiny_ceiling_unfinished_one_trick_witness :
    ((0 : Int) < 1) ∧ ((1 : Int) < 500) ∧
    ∃ s, playGame idShuffle 500 15000 false 1 0 = some s ∧
      s.finished = false ∧ s.tricks = 1 :=
  ⟨by decide, by decide,
   tiny_ceiling_unfinished_one_trick idShuffle (fun _ _ => rfl) 500 15000 false 1 0
     (by decide) (by decide)⟩

/-- C6: war statistics accounting.  First part: a tie at depth 1 that
resolves on the first war comparison (no timeout, both players obtained
war cards, the comparison cards differ) increments the war counter by
exactly 1, the deep-war counter by exactly 0, and the war-depth sum by
1.  Second part: a tie whose war comparison cards tie again (a deep
war), resolving at depth 2, increments the deep-war counter by exactly
1 and the war-depth sum by 1 + 2 (and the war counter by 2, once per
level). -/
theorem war_statistics_accounting :
    (∀ (sh : ShuffleOracle) (ht st mt : Int) (fuel : Nat) (pA pB : Player)
       (wp : List Card) (stats : GameStats) (tt : Int) (k : Nat)
       (cardsA : List Card) (pA2 : Player) (sA2 t2 : Int) (k2 : Nat)
       (cardsB : List Card) (pB2 : Player) (sB2 t3 : Int) (k3 : Nat),
       ¬(tt + ht ≥ mt) →
       drawWarCards sh ht st pA stats.shufflesA (tt + ht) k =
         (cardsA, pA2, sA2, t2, k2) →
       drawWarCards sh ht st pB stats.shufflesB t2 k2 =
         (cardsB, pB2, sB2, t3, k3) →
       cardsA ≠ [] → cardsB ≠ [] →
       (cardsA.getLastD ⟨0⟩).rank ≠ (cardsB.getLastD ⟨0⟩).rank →
       ∃ r stats3,
         handleWar sh ht st mt (fuel + 1) pA pB wp stats tt k 1 =
           some (r, pA2, pB2, stats3, t3, k3) ∧
         stats3.wars = stats.wars + 1 ∧
         stats3.deepWars = stats.deepWars ∧
         stats3.totalWarDepth = stats.totalWarDepth + 1) ∧
    (∀ (sh : ShuffleOracle) (ht st mt : Int) (fuel : Nat) (pA pB : Player)
       (wp : List Card) (stats : GameStats) (tt : Int) (k : Nat)
       (cardsA : List Card) (pA2 : Player) (sA2 t2 : Int) (k2 : Nat)
       (cardsB : List Card) (pB2 : Player) (sB2 t3 : Int) (k3 : Nat)
       (cardsA2 : List Card) (pA4 : Player) (sA4 t4 : Int) (k4 : Nat)
       (cardsB2 : List Card) (pB4 : Player) (sB4 t5 : Int) (k5 : Nat),
       ¬(tt + ht ≥ mt) →
       drawWarCards sh ht st pA stats.shufflesA (tt + ht) k =
         (cardsA, pA2, sA2, t2, k2) →
       drawWarCards sh ht st pB stats.shufflesB t2 k2 =
         (cardsB, pB2, sB2, t3, k3) →
       cardsA ≠ [] → cardsB ≠ [] →
       (cardsA.getLastD ⟨0⟩).rank = (cardsB.getLastD ⟨0⟩).rank →
       totalCards pA2 ≠ 0 → totalCards pB2 ≠ 0 →
       ¬(t3 + ht ≥ mt) →
       drawWarCards sh ht st pA2 sA2 (t3 + ht) k3 =
         (cardsA2, pA4, sA4, t4, k4) →
       drawWarCards sh ht st pB2 sB2 t4 k4 =
         (cardsB2, pB4, sB4, t5, k5) →
       cardsA2 ≠ [] → cardsB2 ≠ [] →
       (cardsA2.getLastD ⟨0⟩).rank ≠ (cardsB2.getLastD ⟨0⟩).rank →
       ∃ r stats4,
         handleWar sh ht st mt (fuel + 2) pA pB wp stats tt k 1 =
           some (r, pA4, pB4, stats4, t5, k5) ∧
         stats4.deepWars = stats.deepWars + 1 ∧
         stats4.totalWarDepth = stats.totalWarDepth + (1 + 2) ∧
         stats4.wars = stats.wars + 2) := by
  constructor
  · intro sh ht st mt fuel pA pB wp stats tt k cardsA pA2 sA2 t2 k2
      cardsB pB2 sB2 t3 k3 hnt hA hB hcA hcB hne
    rw [handleWar_succ]
    simp only [handleWarStep]
    rw [if_neg hnt]
    rw [hA]
    simp only []
    rw [hB]
    simp only []
    have hlen : ¬(cardsA.length = 0 ∨ cardsB.length = 0) := by
      simp only [not_or, List.length_eq_zero]
      exact ⟨hcA, hcB⟩
    rw [if_neg hlen, if_neg hne]
    by_cases hgt : (cardsA.getLastD ⟨0⟩).rank > (cardsB.getLastD ⟨0⟩).rank
    · rw [if_pos hgt]
      exact ⟨_, _, rfl, by simp, by simp, by simp⟩
    · rw [if_neg hgt]
      exact ⟨_, _, rfl, by simp, by simp, by simp⟩
  · intro sh ht st mt fuel pA pB wp stats tt k cardsA pA2 sA2 t2 k2
      cardsB pB2 sB2 t3 k3 cardsA2 pA4 sA4 t4 k4 cardsB2 pB4 sB4 t5 k5
      hnt1 hA hB hcA hcB heq1 hz1 hz2 hnt2 hA2 hB2 hcA2 hcB2 hne2
    rw [show fuel + 2 = (fuel + 1) + 1 from rfl]
    rw [handleWar_succ]
    simp only [handleWarStep]
    rw [if_neg hnt1]
    rw [hA]
    simp only []
    rw [hB]
    simp only []
    have hlen : ¬(cardsA.length = 0 ∨ cardsB.length = 0) := by
      simp only [not_or, List.length_eq_zero]
      exact ⟨hcA, hcB⟩
    rw [if_neg hlen, if_pos heq1]
    simp only [handleDeepWarWith]
    rw [if_neg hz1, if_neg hz2]
    rw [handleWar_succ]
    simp only [handleWarStep]
    rw [if_neg hnt2]
    rw [hA2]
    simp only []
    rw [hB2]
    simp only []
    have hlen2 : ¬(cardsA2.length = 0 ∨ cardsB2.length = 0) := by
      simp only [not_or, List.length_eq_zero]
      exact ⟨hcA2, hcB2⟩
    rw [if_neg hlen2, if_neg hne2]
    by_cases hgt : (cardsA2.getLastD ⟨0⟩).rank > (cardsB2.getLastD ⟨0⟩).rank
    · rw [if_pos hgt]
      refine ⟨_, _, rfl, ?_, ?_, ?_⟩ <;> (simp only []; try omega)
    · rw [if_neg hgt]
      refine ⟨_, _, rfl, ?_, ?_, ?_⟩ <;> (simp only []; try omega)

/-- Witness for C6: both scenarios at concrete inputs (identity shuffle;
hand and shuffle time 1 ms, ceiling 1000 ms; war piles drawn from
explicit five- and nine-card draw piles). -/
theorem war_statistics_accounting_witness :
    (∃ r stats3,
      handleWar idShuffle 1 1 1000 (5 + 1)
          ⟨[⟨5⟩, ⟨5⟩, ⟨5⟩, ⟨6⟩, ⟨9⟩], []⟩ ⟨[⟨5⟩, ⟨5⟩, ⟨5⟩, ⟨7⟩, ⟨9⟩], []⟩
          [⟨4⟩, ⟨4⟩] {} 0 0 1 =
        some (r, ⟨[⟨9⟩], []⟩, ⟨[⟨9⟩], []⟩, stats3, 9, 0) ∧
      stats3.wars = ({} : GameStats).wars + 1 ∧
      stats3.deepWars = ({} : GameStats).deepWars ∧
      stats3.totalWarDepth = ({} : GameStats).totalWarDepth + 1) ∧
    (∃ r stats4,
      handleWar idShuffle 1 1 1000 (3 + 2)
          ⟨[⟨5⟩, ⟨5⟩, ⟨5⟩, ⟨6⟩, ⟨8⟩, ⟨8⟩, ⟨8⟩, ⟨9⟩, ⟨2⟩], []⟩
          ⟨[⟨5⟩, ⟨5⟩, ⟨5⟩, ⟨6⟩, ⟨8⟩, ⟨8⟩, ⟨8⟩, ⟨10⟩, ⟨2⟩], []⟩
          [⟨4⟩, ⟨4⟩] {} 0 0 1 =
        some (r, ⟨[⟨2⟩], []⟩, ⟨[⟨2⟩], []⟩, stats4, 18, 0) ∧
      stats4.deepWars = ({} : GameStats).deepWars + 1 ∧
      stats4.totalWarDepth = ({} : GameStats).totalWarDepth + (1 + 2) ∧
      stats4.wars = ({} : GameStats).wars + 2) :=
  ⟨war_statistics_accounting.1 idShuffle 1 1 1000 5
      ⟨[⟨5⟩, ⟨5⟩, ⟨5⟩, ⟨6⟩, ⟨9⟩], []⟩ ⟨[⟨5⟩, ⟨5⟩, ⟨5⟩, ⟨7⟩, ⟨9⟩], []⟩
      [⟨4⟩, ⟨4⟩] {} 0 0
      [⟨5⟩, ⟨5⟩, ⟨5⟩, ⟨6⟩] ⟨[⟨9⟩], []⟩ 0 5 0
      [⟨5⟩, ⟨5⟩, ⟨5⟩, ⟨7⟩] ⟨[⟨9⟩], []⟩ 0 9 0
      (by decide) (by decide) (by decide) (by decide) (by decide) (by decide),
   war_statistics_accounting.2 idShuffle 1 1 1000 3
      ⟨[⟨5⟩, ⟨5⟩, ⟨5⟩, ⟨6⟩, ⟨8⟩, ⟨8⟩, ⟨8⟩, ⟨9⟩, ⟨2⟩], []⟩
      ⟨[⟨5⟩, ⟨5⟩, ⟨5⟩, ⟨6⟩, ⟨8⟩, ⟨8⟩, ⟨8⟩, ⟨10⟩, ⟨2⟩], []⟩
      [⟨4⟩, ⟨4⟩] {} 0 0
      [⟨5⟩, ⟨5⟩, ⟨5⟩, ⟨6⟩] ⟨[⟨8⟩, ⟨8⟩, ⟨8⟩, ⟨9⟩, ⟨2⟩], []⟩ 0 5 0
      [⟨5⟩, ⟨5⟩, ⟨5⟩, ⟨6⟩] ⟨[⟨8⟩, ⟨8⟩, ⟨8⟩, ⟨10⟩, ⟨2⟩], []⟩ 0 9 0
      [⟨8⟩, ⟨8⟩, ⟨8⟩, ⟨9⟩] ⟨[⟨2⟩], []⟩ 0 14 0
      [⟨8⟩, ⟨8⟩, ⟨8⟩, ⟨10⟩] ⟨[⟨2⟩], []⟩ 0 18 0
      (by decide) (by decide) (by decide) (by decide) (by decide) (by decide)
      (by decide) (by decide) (by decide) (by decide) (by decide) (by decide)
      (by decide) (by decide)⟩

end Wargames
